import Mathlib

/-!
Verification development for the jeju_sale1 metrics pipeline
(`src/app_dashboard.py` and `src/marketing_analysis_script.py`).

The pipeline is shallowly embedded: pandas cell values become `PyVal`,
currency/number parsing becomes explicit `Option`-returning parsers (with
`none` standing for a raised Python exception), pandas float arithmetic
with `inf` and `NaN` becomes the four-constructor type `EF`, and dataframe
operations (`groupby`/`agg`/`nunique`/`count`/`qcut`/`rank`) become list and
`Finset` computations over row structures that carry exactly the columns
the analysed code touches.
-/

/-- A pandas cell value as the dashboard sees it: a string, a finite float
(modelled as a rational), the float `NaN`, or Python `None`. -/
inductive PyVal where
  | str (s : String)
  | num (q : ℚ)
  | nan
  | none_
deriving DecidableEq

/-- Numeric value of a list of decimal digit characters (most significant
first), as produced by `float` / `int` on a digit string. -/
def digitsVal (l : List Char) : ℕ :=
  l.foldl (fun n c => 10 * n + (c.toNat - 48)) 0

/-- Strip leading and trailing whitespace, as Python `float` does before
parsing. -/
def trimWs (l : List Char) : List Char :=
  ((l.dropWhile Char.isWhitespace).reverse.dropWhile Char.isWhitespace).reverse

/-- Parse an unsigned decimal literal: digits with an optional fractional
part (`"12"`, `"12.5"`, `"12."`, `".5"`).  Anything else fails. -/
def pyFloatCore (l : List Char) : Option ℚ :=
  let ip := l.takeWhile Char.isDigit
  match l.dropWhile Char.isDigit with
  | [] => if ip = [] then none else some (digitsVal ip : ℚ)
  | '.' :: r2 =>
    let fp := r2.takeWhile Char.isDigit
    if r2.dropWhile Char.isDigit = [] ∧ (ip ≠ [] ∨ fp ≠ []) then
      some ((digitsVal ip : ℚ) + (digitsVal fp : ℚ) / (10 : ℚ) ^ fp.length)
    else none
  | _ => none

/-- Model of the Python builtin `float` on decimal strings: surrounding
whitespace is stripped, an optional sign is honoured, then a plain decimal
literal is required.  `none` models the `ValueError` Python raises on any
other input.  (Exponent notation and the `inf`/`nan` literals, which the
dashboard's currency columns never contain, are treated as unparsable.) -/
def pyFloat (l : List Char) : Option ℚ :=
  match trimWs l with
  | '-' :: r => (pyFloatCore r).map (fun q => -q)
  | '+' :: r => pyFloatCore r
  | r => pyFloatCore r

/-- Source: `clean_money` (app_dashboard.py lines 82-85).  A string has its
thousands-separator commas removed and is passed to `float` — which raises
(`none`) when the remainder is unparsable; any non-string value (numbers,
`NaN`, `None`) is returned unchanged. -/
def clean_money : PyVal → Option PyVal
  | PyVal.str s => (pyFloat (s.data.filter (fun c => c ≠ ','))).map PyVal.num
  | v => some v

/-- Source: `pd.to_numeric(col, errors='coerce').fillna(0)`
(app_dashboard.py lines 89-91).  Strings are parsed as plain floats (no
comma stripping); any parse failure, `NaN` or `None` coerces to 0. -/
def toNumeric0 : PyVal → ℚ
  | PyVal.str s => (pyFloat s.data).getD 0
  | PyVal.num q => q
  | PyVal.nan => 0
  | PyVal.none_ => 0

/-- Parse an ISO `YYYY-MM-DD` date into the number `y*10000 + m*100 + d`.
Modelled simplification of the timestamp formats accepted by
`pd.to_datetime`; the dashboard's preprocessed data uses this shape. -/
def parseYMD (l : List Char) : Option ℕ :=
  let y := l.takeWhile Char.isDigit
  match l.dropWhile Char.isDigit with
  | '-' :: r1 =>
    let mo := r1.takeWhile Char.isDigit
    match r1.dropWhile Char.isDigit with
    | '-' :: r2 =>
      let d := r2.takeWhile Char.isDigit
      if r2.dropWhile Char.isDigit = [] ∧ y ≠ [] ∧ mo ≠ [] ∧ d ≠ [] ∧
          1 ≤ digitsVal mo ∧ digitsVal mo ≤ 12 ∧ 1 ≤ digitsVal d ∧ digitsVal d ≤ 31 then
        some (digitsVal y * 10000 + digitsVal mo * 100 + digitsVal d)
      else none
    | _ => none
  | _ => none

/-- Source: `pd.to_datetime(df['주문일'])` (app_dashboard.py line 94), which
has no `errors='coerce'`: an unparsable timestamp string raises (outer
`none`), while missing values (`NaN`/`None`) become `NaT` (inner `none`)
without raising.  Numeric cells are converted by pandas without raising;
they fall outside the modelled date format and are mapped to `NaT` too. -/
def pyToDatetime : PyVal → Option (Option ℕ)
  | PyVal.str s => (parseYMD s.data).map some
  | PyVal.nan => some none
  | PyVal.none_ => some none
  | PyVal.num _ => some none

/-- One raw CSV row, restricted to the columns `load_data` touches:
`실결제 금액` (paid), `공급단가` (supply), `주문-취소 수량` (net),
`주문수량` (ordered), `취소수량` (cancelled), `주문일` (orderDate),
`셀러명` (seller), `품종` (variety), `광역지역(정식)` (region),
`주문경로` (channel), `UID` (uid), `주문번호` (orderId). -/
structure RawRow where
  paid : PyVal
  supply : PyVal
  net : PyVal
  ordered : PyVal
  cancelled : PyVal
  orderDate : PyVal
  seller : Option String
  variety : Option String
  region : Option String
  channel : Option String
  uid : Option String
  orderId : Option String
deriving DecidableEq

/-- A row of the dataframe returned by `load_data`: currency columns have
been through `clean_money` (and may still be `NaN`/`None`), quantity
columns are coerced numbers, the timestamp is parsed (`none` = `NaT`),
seller and variety are filled strings, and the remaining categorical
columns are untouched. -/
structure CleanRow where
  paid : PyVal
  supply : PyVal
  net : ℚ
  ordered : ℚ
  cancelled : ℚ
  orderDate : Option ℕ
  seller : String
  variety : String
  region : Option String
  channel : Option String
  uid : Option String
  orderId : Option String
deriving DecidableEq

/-- Source: the cleaning stage of `load_data` (app_dashboard.py lines
81-99) applied to one row.  `none` models the row's load raising: the two
`clean_money` applications and `pd.to_datetime` can raise, the quantity
coercions and the seller/variety `fillna(...).astype(str)` cannot.  Region,
channel, UID and order number are not cleaned at all. -/
def loadRow (r : RawRow) : Option CleanRow := do
  let paid ← clean_money r.paid
  let supply ← clean_money r.supply
  let date ← pyToDatetime r.orderDate
  some ⟨paid, supply, toNumeric0 r.net, toNumeric0 r.ordered, toNumeric0 r.cancelled,
    date, r.seller.getD ("미지정"), r.variety.getD ("기타"),
    r.region, r.channel, r.uid, r.orderId⟩

/-- A pandas float value: finite, `+inf`, `-inf`, or `NaN`.  Used wherever
the source relies on pandas producing and then replacing non-finite
values. -/
inductive EF where
  | fin (q : ℚ)
  | pinf
  | ninf
  | nan
deriving DecidableEq

/-- IEEE-style addition on pandas floats. -/
def EF.add : EF → EF → EF
  | EF.nan, _ => EF.nan
  | _, EF.nan => EF.nan
  | EF.fin a, EF.fin b => EF.fin (a + b)
  | EF.pinf, EF.ninf => EF.nan
  | EF.ninf, EF.pinf => EF.nan
  | EF.pinf, _ => EF.pinf
  | _, EF.pinf => EF.pinf
  | EF.ninf, _ => EF.ninf
  | _, EF.ninf => EF.ninf

/-- IEEE-style multiplication on pandas floats (`0 * inf = NaN`). -/
def EF.mul : EF → EF → EF
  | EF.nan, _ => EF.nan
  | _, EF.nan => EF.nan
  | EF.fin a, EF.fin b => EF.fin (a * b)
  | EF.fin a, EF.pinf => if a = 0 then EF.nan else if 0 < a then EF.pinf else EF.ninf
  | EF.pinf, EF.fin b => if b = 0 then EF.nan else if 0 < b then EF.pinf else EF.ninf
  | EF.fin a, EF.ninf => if a = 0 then EF.nan else if 0 < a then EF.ninf else EF.pinf
  | EF.ninf, EF.fin b => if b = 0 then EF.nan else if 0 < b then EF.ninf else EF.pinf
  | EF.pinf, EF.pinf => EF.pinf
  | EF.pinf, EF.ninf => EF.ninf
  | EF.ninf, EF.pinf => EF.ninf
  | EF.ninf, EF.ninf => EF.pinf

/-- IEEE-style division on pandas floats: `x/0` is `±inf` for `x ≠ 0` and
`NaN` for `x = 0` (numpy semantics, as in a pandas Series division). -/
def EF.div : EF → EF → EF
  | EF.nan, _ => EF.nan
  | _, EF.nan => EF.nan
  | EF.fin a, EF.fin b =>
    if b ≠ 0 then EF.fin (a / b) else if a = 0 then EF.nan else if 0 < a then EF.pinf else EF.ninf
  | EF.fin _, EF.pinf => EF.fin 0
  | EF.fin _, EF.ninf => EF.fin 0
  | EF.pinf, EF.fin b => if 0 ≤ b then EF.pinf else EF.ninf
  | EF.ninf, EF.fin b => if 0 ≤ b then EF.ninf else EF.pinf
  | _, _ => EF.nan

/-- Squaring, as the source's `** 2` on a Series element. -/
def EF.sq (e : EF) : EF := EF.mul e e

/-- Source: `.replace([float('inf')], 0)` — only positive infinity is
replaced (app_dashboard.py lines 400, 529, 530, 531). -/
def replacePinf0 (e : EF) : EF := if e = EF.pinf then EF.fin 0 else e

/-- Source: `.replace([float('inf'), -float('inf')], 0)` — both infinities
replaced (app_dashboard.py lines 181, 183, 300). -/
def replaceInf0 (e : EF) : EF := if e = EF.pinf ∨ e = EF.ninf then EF.fin 0 else e

/-- Source: `.fillna(d)` on a float Series: `NaN` becomes the default. -/
def fillnaWith (d : ℚ) (e : EF) : EF := if e = EF.nan then EF.fin d else e

/-- Finite part of a pandas float (0 otherwise); applied only where the
source has already replaced every non-finite value. -/
def EF.toQ : EF → ℚ
  | EF.fin q => q
  | _ => 0

/-- Source: `pandas.Series.sum()` with its default `skipna=True`: `NaN`
elements are dropped, the rest are added; an empty or all-`NaN` list sums
to 0. -/
def sumSkipNa (l : List EF) : EF :=
  (l.filter (fun e => e ≠ EF.nan)).foldl EF.add (EF.fin 0)

/-- Source: app_dashboard.py lines 180-181.
`filtered_df['단위공급단가'] = 공급단가 / 주문수량`, then
`.replace([inf, -inf], 0).fillna(0)` — so a zero order quantity yields a
unit supply price of 0 instead of `inf`/`NaN`. -/
def unitSupplyPrice (supply ordered : ℚ) : ℚ :=
  (fillnaWith 0 (replaceInf0 (EF.div (EF.fin supply) (EF.fin ordered)))).toQ

/-- Source: app_dashboard.py line 182.
`이익 = 실결제 금액 - (단위공급단가 * 주문-취소 수량)`: unit supply price is
taken over the pre-cancellation quantity, profit applies it to the net
quantity. -/
def rowProfit (paid supply ordered net : ℚ) : ℚ :=
  paid - unitSupplyPrice supply ordered * net

/-- The four numeric columns of one `filtered_df` row that the profit
derivation reads: `실결제 금액`, `공급단가`, `주문수량`, `주문-취소 수량`. -/
structure DRow where
  paid : ℚ
  supply : ℚ
  ordered : ℚ
  net : ℚ
deriving DecidableEq

/-- Aggregate `'실결제 금액': 'sum'` over a (seller-)group of rows. -/
def totalSalesOf (rows : List DRow) : ℚ := (rows.map (fun r => r.paid)).sum

/-- Aggregate `'이익': 'sum'` over a (seller-)group of rows. -/
def totalProfitOf (rows : List DRow) : ℚ :=
  (rows.map (fun r => rowProfit r.paid r.supply r.ordered r.net)).sum

/-- Source: app_dashboard.py line 529.
`이익률(%) = (이익 / 매출액 * 100).replace([float('inf')], 0).fillna(0)` for
a seller aggregate. -/
def sellerMargin (profitSum salesSum : ℚ) : EF :=
  fillnaWith 0 (replacePinf0 (EF.mul (EF.div (EF.fin profitSum) (EF.fin salesSum)) (EF.fin 100)))

/-- The two-row seller-"A" scenario of the spec's end-to-end test: paid
`"1,000"` / `"2,000"` already cleaned to 1000 and 2000, supply unit prices
400 and 500, ordered quantities 2 and 1, net quantities `2 - 0 = 2` and
`1 - 1 = 0`. -/
def scenarioRows : List DRow := [⟨1000, 400, 2, 2⟩, ⟨2000, 500, 1, 0⟩]

/-- A `filtered_df` row restricted to the columns the seller/channel HHI
reads: `셀러명`, `주문경로`, `실결제 금액`. -/
structure SRow where
  seller : String
  channel : String
  paid : ℚ
deriving DecidableEq

/-- Source: `seller_data.groupby('주문경로')['실결제 금액'].sum()` inside
`calculate_channel_hhi` (app_dashboard.py line 616): per distinct channel
of the seller's rows, the summed paid amount.  (pandas sorts the group
keys; the HHI only sums over them, so key order is irrelevant.) -/
def channelSales (rows : List SRow) (s : String) : List ℚ :=
  let sd := rows.filter (fun r => r.seller = s)
  (sd.map (fun r => r.channel)).dedup.map
    (fun c => ((sd.filter (fun r => r.channel = c)).map (fun r => r.paid)).sum)

/-- Source: `calculate_channel_hhi` (app_dashboard.py lines 611-621):
returns 0 for a seller with no rows or zero total sales, otherwise
`((channel_sales / total * 100) ** 2).sum()`. -/
def calculate_channel_hhi (rows : List SRow) (s : String) : ℚ :=
  if rows.filter (fun r => r.seller = s) = [] then 0
  else if (channelSales rows s).sum = 0 then 0
  else ((channelSales rows s).map
    (fun x => (x / (channelSales rows s).sum * 100) ^ 2)).sum

/-- Source: the unguarded regional HHI of tab6 (app_dashboard.py lines
884-885): `((r_d['실결제 금액'] / total * 100)**2).sum()` computed with
pandas float semantics — division by a zero total produces `±inf`/`NaN`
element-wise and the final `.sum()` skips `NaN`. -/
def tab6Hhi (sales : List ℚ) : EF :=
  sumSkipNa (sales.map (fun x =>
    EF.sq (EF.mul (EF.div (EF.fin x) (EF.fin sales.sum)) (EF.fin 100))))

/-- A `filtered_df` row restricted to the columns the tab6 regional HHI
reads: `광역지역(정식)`, `셀러명`, `실결제 금액`. -/
structure RRow where
  region : String
  seller : String
  paid : ℚ
deriving DecidableEq

/-- Source: `reg_s = filtered_df.groupby(['광역지역(정식)', '셀러명'])['실결제
금액'].sum()` restricted to one region (app_dashboard.py lines 880-883):
the per-seller sales of that region. -/
def regionSellerSales (rows : List RRow) (rg : String) : List ℚ :=
  let rd := rows.filter (fun r => r.region = rg)
  (rd.map (fun r => r.seller)).dedup.map
    (fun s => ((rd.filter (fun r => r.seller = s)).map (fun r => r.paid)).sum)

/-- Source: the tab6 per-region seller-concentration HHI (app_dashboard.py
lines 880-886). -/
def tab6RegionHhi (rows : List RRow) (rg : String) : EF :=
  tab6Hhi (regionSellerSales rows rg)

/-- Source: `segment_customer` (app_dashboard.py lines 444-450), evaluated
top-down on the three 1-5 scores with the first matching branch winning. -/
def segment_customer (r f m : ℤ) : String :=
  if 13 ≤ r + f + m then "VIP 고객"
  else if 10 ≤ r + f + m then "충성 고객"
  else if 4 ≤ r then "신규 고객"
  else if r ≤ 2 then "이탈 위험"
  else "일반 고객"

/-- Source: `series.rank(method='first')` (app_dashboard.py lines 436-438):
the rank of position `i` is one plus the number of positions that are
strictly smaller, or equal in value and earlier in the series — every
position gets a distinct rank even when raw values repeat. -/
def rankFirst (xs : List ℚ) (i : ℕ) : ℕ :=
  1 + ((Finset.range xs.length).filter (fun j =>
      xs.getD j 0 < xs.getD i 0 ∨ (xs.getD j 0 = xs.getD i 0 ∧ j < i))).card

/-- Source: `pd.qcut(ranks, 5)` applied to a series whose values are
exactly the distinct ranks `1..n` (app_dashboard.py lines 436-438): the
quantile edges are `1 + b*(n-1)/5`, the bins are right-closed, and the
minimum is kept in the first bin, so rank `r ≥ 2` lands in bin `b` iff
`(b-1)*(n-1) < 5*(r-1) ≤ b*(n-1)`. -/
def qcutBucket (n r : ℕ) : ℕ :=
  if r ≤ 1 then 1
  else if 5 * (r - 1) ≤ n - 1 then 1
  else if 5 * (r - 1) ≤ 2 * (n - 1) then 2
  else if 5 * (r - 1) ≤ 3 * (n - 1) then 3
  else if 5 * (r - 1) ≤ 4 * (n - 1) then 4
  else 5

/-- Source: `R_Score` (app_dashboard.py line 436): quintile bucket of the
recency rank with the reversed label list `[5, 4, 3, 2, 1]`, so bin `b`
gets score `6 - b`. -/
def rScoreRfm (xs : List ℚ) (i : ℕ) : ℕ :=
  6 - qcutBucket xs.length (rankFirst xs i)

/-- Source: `F_Score` / `M_Score` (app_dashboard.py lines 437-438):
quintile bucket of the rank with labels `[1, 2, 3, 4, 5]`, so bin `b` gets
score `b`. -/
def fScoreRfm (xs : List ℚ) (i : ℕ) : ℕ :=
  qcutBucket xs.length (rankFirst xs i)

/-- The positions of the series that land in quintile bucket `b`. -/
def bucketMembers (xs : List ℚ) (b : ℕ) : Finset ℕ :=
  (Finset.range xs.length).filter (fun i => qcutBucket xs.length (rankFirst xs i) = b)

/-- A `filtered_df` row restricted to the columns the seller deep-dive
aggregation reads for the repurchase index: `셀러명`, `UID`, `주문번호`
(the latter two may be missing). -/
structure ORow where
  seller : String
  uid : Option String
  orderId : Option String
deriving DecidableEq

/-- Source: `'주문번호': 'count'` in the `seller_deep` aggregation
(app_dashboard.py line 522): the number of non-null order numbers in the
seller's group. -/
def orderCountOf (rows : List ORow) (s : String) : ℕ :=
  ((rows.filter (fun r => r.seller = s)).filterMap (fun r => r.orderId)).length

/-- Source: `'UID': 'nunique'` in the `seller_deep` aggregation
(app_dashboard.py line 521): the number of distinct non-null UIDs in the
seller's group. -/
def uniqueCustomersOf (rows : List ORow) (s : String) : ℕ :=
  ((rows.filter (fun r => r.seller = s)).filterMap (fun r => r.uid)).dedup.length

/-- Source: app_dashboard.py line 531.
`재구매지수 = (주문건수 / 고유고객수).replace([float('inf')], 0).fillna(1)`:
pandas division of the two counts, `+inf` replaced by 0, `NaN` filled
with 1. -/
def repurchaseIndex (rows : List ORow) (s : String) : EF :=
  fillnaWith 1 (replacePinf0
    (EF.div (EF.fin (orderCountOf rows s : ℚ)) (EF.fin (uniqueCustomersOf rows s : ℚ))))

/-- Source: the first maximal digit run of `re.search(r'(\d+)', val)`
(app_dashboard.py line 47): scan to the first digit and take the
contiguous digits from there. -/
def firstDigitRun : List Char → Option (List Char)
  | [] => none
  | c :: cs => if c.isDigit then some (c :: cs.takeWhile Char.isDigit) else firstDigitRun cs

/-- Source: `extract_numeric_value` (app_dashboard.py lines 44-49): on a
string, commas are removed and the first contiguous digit run becomes the
value (0.0 when there is none); `None` becomes 0.0; a number is passed to
`float` unchanged (so a `NaN` cell stays `NaN`). -/
def extract_numeric_value : PyVal → PyVal
  | PyVal.str s =>
    match firstDigitRun (s.data.filter (fun c => c ≠ ',')) with
    | some ds => PyVal.num (digitsVal ds : ℚ)
    | none => PyVal.num 0
  | PyVal.num q => PyVal.num q
  | PyVal.nan => PyVal.nan
  | PyVal.none_ => PyVal.num 0

/-- One order row of the batch script's dataset (`marketing_analysis
script` lines 41-53), restricted to the columns the reorder metrics read:
`셀러명`, `UID`, and the row itself standing for one order-number entry. -/
structure MRow where
  seller : String
  uid : String
deriving DecidableEq

/-- Source: `customer_stats` order count (marketing script lines 50-53):
orders of one customer at one seller. -/
def mOrderCount (rows : List MRow) (s u : String) : ℕ :=
  (rows.filter (fun r => r.seller = s ∧ r.uid = u)).length

/-- Source: `'UID': 'nunique'` in `seller_metrics` (marketing script
lines 59-63). -/
def mUniqueCustomers (rows : List MRow) (s : String) : ℕ :=
  ((rows.filter (fun r => r.seller = s)).map (fun r => r.uid)).dedup.length

/-- Source: `reorder_summary` (marketing script lines 56, 66-69):
customers of the seller whose `reorder_count = order_count - 1` is
positive, i.e. with at least two orders. -/
def mReorderingCustomers (rows : List MRow) (s : String) : ℕ :=
  (((rows.filter (fun r => r.seller = s)).map (fun r => r.uid)).dedup.filter
    (fun u => 1 < mOrderCount rows s u)).length

/-- Source: marketing script line 72:
`reorder_rate = (reordering_customers / unique_customers) * 100`. -/
def reorderRate (rows : List MRow) (s : String) : ℚ :=
  (mReorderingCustomers rows s : ℚ) / (mUniqueCustomers rows s : ℚ) * 100

/-- Source: marketing script line 73:
`churn_rate = (1 - reordering_customers / unique_customers) * 100`. -/
def churnRate (rows : List MRow) (s : String) : ℚ :=
  (1 - (mReorderingCustomers rows s : ℚ) / (mUniqueCustomers rows s : ℚ)) * 100

/-- A raw row whose paid amount is an unparsable currency string. -/
def c2rawBad : RawRow :=
  ⟨PyVal.str ("abc"), PyVal.str ("0"), PyVal.num 1, PyVal.num 1, PyVal.num 0,
    PyVal.str ("2024-01-02"), none, none, none, none, none, none⟩

/-- A raw row on which every cleaning step succeeds. -/
def c2rawGood : RawRow :=
  ⟨PyVal.str (" 1,000 "), PyVal.str ("400"), PyVal.num 2, PyVal.num 2, PyVal.num 0,
    PyVal.str ("2024-01-02"), some ("셀러A"), none, none, none, none, none⟩

/-- Region "R" split across two sellers whose sales cancel to a zero
total. -/
def c4rows : List RRow := [⟨("R"), ("a"), 100⟩, ⟨("R"), ("b"), -100⟩]

/-- Seller "A" with two channels and a positive total. -/
def c4srows : List SRow := [⟨("A"), ("web"), 60⟩, ⟨("A"), ("app"), 40⟩]

/-- A seller group whose UID and order-number cells are all missing. -/
def c7rowsBad : List ORow := [⟨("S"), none, none⟩]

/-- A seller group with one customer and two orders. -/
def c7rowsGood : List ORow :=
  [⟨("S"), some ("u1"), some ("o1")⟩, ⟨("S"), some ("u1"), some ("o2")⟩]

/-- A raw row with a negative paid amount and a net-quantity column that
does not equal ordered minus cancelled. -/
def c8raw0 : RawRow :=
  ⟨PyVal.str ("-5"), PyVal.str ("0"), PyVal.str ("abc"), PyVal.num 3, PyVal.num 0,
    PyVal.str ("2024-01-02"), none, none, none, none, none, none⟩

/-- A raw row whose fields are all well formed and consistent. -/
def c8raw1 : RawRow :=
  ⟨PyVal.str ("1,000"), PyVal.str ("500"), PyVal.num 3, PyVal.num 4, PyVal.num 1,
    PyVal.str ("2024-01-02"), none, none, none, none, none, none⟩

/-- The cleaned row `loadRow` produces from `c8raw1`. -/
def c8clean1 : CleanRow :=
  ⟨PyVal.num 1000, PyVal.num 500, 3, 4, 1, some 20240102,
    ("미지정"), ("기타"), none, none, none, none⟩

/-- A raw row with missing region and channel (and seller/variety). -/
def c9raw : RawRow :=
  ⟨PyVal.num 100, PyVal.num 10, PyVal.num 1, PyVal.num 1, PyVal.num 0,
    PyVal.str ("2024-01-02"), none, none, none, none, some ("u1"), some ("o1")⟩

/-- The cleaned row `loadRow` produces from `c9raw`. -/
def c9clean : CleanRow :=
  ⟨PyVal.num 100, PyVal.num 10, 1, 1, 0, some 20240102,
    ("미지정"), ("기타"), none, none, some ("u1"), some ("o1")⟩

/-- One seller with one customer and one order, for the batch-script
metrics. -/
def c10rows : List MRow := [⟨("s1"), ("u1")⟩]

/-- Five recency values with a duplicated raw value (the two `1`s). -/
def c6xs : List ℚ := [3, 1, 4, 1, 5]

/-- Five values with a unique minimum (at position 1) and a unique
maximum (at position 4). -/
def c6xs2 : List ℚ := [3, 1, 4, 2, 5]

/-- C1, counterexample: on the spec's own two-row seller-"A" scenario the
derivation of app_dashboard.py lines 179-186 gives row-2 profit
`2000 - (500/1) * (1-1) = 2000`, not the claimed 1500, hence total profit
2600 (not 2100) and margin 260/3 % (not 70 %). -/
theorem c1_counterexample :
    clean_money (PyVal.str ("1,000")) = some (PyVal.num 1000) ∧
    clean_money (PyVal.str ("2,000")) = some (PyVal.num 2000) ∧
    rowProfit 2000 500 1 0 = 2000 ∧ rowProfit 2000 500 1 0 ≠ 1500 ∧
    totalProfitOf scenarioRows = 2600 ∧ totalProfitOf scenarioRows ≠ 2100 ∧
    sellerMargin (totalProfitOf scenarioRows) (totalSalesOf scenarioRows) = EF.fin (260 / 3) ∧
    (260 / 3 : ℚ) ≠ 70 := by
  refine ⟨by rfl, by rfl, ?_, ?_, ?_, ?_, ?_, by norm_num⟩ <;>
    simp [rowProfit, unitSupplyPrice, EF.div, EF.toQ, replaceInf0, fillnaWith,
      totalProfitOf, totalSalesOf, scenarioRows, sellerMargin, EF.mul, replacePinf0] <;>
    norm_num <;> simp

/-- C1, amended: on the two-row seller-"A" scenario the derivation yields
per-row profits 600 and 2000, and the seller aggregate has total sales
3000, total profit 2600 and margin 260/3 ≈ 86.67 %. -/
theorem c1_amended :
    rowProfit 1000 400 2 2 = 600 ∧ rowProfit 2000 500 1 0 = 2000 ∧
    totalSalesOf scenarioRows = 3000 ∧ totalProfitOf scenarioRows = 2600 ∧
    sellerMargin (totalProfitOf scenarioRows) (totalSalesOf scenarioRows) =
      EF.fin (260 / 3) := by
  refine ⟨?_, ?_, ?_, ?_, ?_⟩ <;>
    simp [rowProfit, unitSupplyPrice, EF.div, EF.toQ, replaceInf0, fillnaWith,
      totalProfitOf, totalSalesOf, scenarioRows, sellerMargin, EF.mul, replacePinf0] <;>
    norm_num <;> simp

/-- C10: in the batch script's per-seller metrics, whenever
`unique_customers` is positive the reorder rate and the churn rate of
marketing script lines 72-73 sum to exactly 100. -/
theorem c10_reorder_churn_sum (rows : List MRow) (s : String)
    (h : 0 < mUniqueCustomers rows s) :
    reorderRate rows s + churnRate rows s = 100 := by
  have hu : (mUniqueCustomers rows s : ℚ) ≠ 0 := by exact_mod_cast h.ne'
  unfold reorderRate churnRate
  field_simp
  ring

/-- C10 witness: one seller with one customer, so a positive
`unique_customers` count. -/
theorem c10_witness :
    reorderRate c10rows ("s1") + churnRate c10rows ("s1") = 100 :=
  c10_reorder_churn_sum c10rows ("s1") (by decide)

/-- C5: `segment_customer` is total on 1-5 scores — every score triple
maps to exactly one of the five segments — and the top-down first-match
chain realises exactly the claimed conditions: VIP iff total ≥ 13, Loyal
iff 10 ≤ total < 13, New iff total < 10 and R ≥ 4, At-risk iff total < 10
and R ≤ 2 (R < 4 being forced), Regular otherwise (R = 3). -/
theorem c5_segment_total_first_match (r f m : ℤ) (hr1 : 1 ≤ r) (hr5 : r ≤ 5)
    (hf1 : 1 ≤ f) (hf5 : f ≤ 5) (hm1 : 1 ≤ m) (hm5 : m ≤ 5) :
    (segment_customer r f m = "VIP 고객" ∨ segment_customer r f m = "충성 고객" ∨
     segment_customer r f m = "신규 고객" ∨ segment_customer r f m = "이탈 위험" ∨
     segment_customer r f m = "일반 고객") ∧
    (segment_customer r f m = "VIP 고객" ↔ 13 ≤ r + f + m) ∧
    (segment_customer r f m = "충성 고객" ↔ (10 ≤ r + f + m ∧ r + f + m < 13)) ∧
    (segment_customer r f m = "신규 고객" ↔ (r + f + m < 10 ∧ 4 ≤ r)) ∧
    (segment_customer r f m = "이탈 위험" ↔ (r + f + m < 10 ∧ r < 4 ∧ r ≤ 2)) ∧
    (segment_customer r f m = "일반 고객" ↔ (r + f + m < 10 ∧ r = 3)) := by
  interval_cases r <;> interval_cases f <;> interval_cases m <;> decide

/-- C5 witness: concrete score triples hit the VIP and At-risk segments. -/
theorem c5_witness :
    segment_customer 5 4 4 = "VIP 고객" ∧ segment_customer 1 1 1 = "이탈 위험" :=
  ⟨(c5_segment_total_first_match 5 4 4 (by decide) (by decide) (by decide) (by decide)
      (by decide) (by decide)).2.1.mpr (by decide),
   (c5_segment_total_first_match 1 1 1 (by decide) (by decide) (by decide) (by decide)
      (by decide) (by decide)).2.2.2.2.1.mpr (by decide)⟩

/-- C7 counterexample: a seller group whose UID and order-number cells are
all missing has a zero denominator but repurchase index 1 — the `fillna(1)`
of app_dashboard.py line 531 — not the claimed 0. -/
theorem c7_counterexample :
    uniqueCustomersOf c7rowsBad ("S") = 0 ∧
    repurchaseIndex c7rowsBad ("S") = EF.fin 1 ∧ EF.fin (1 : ℚ) ≠ EF.fin 0 := by
  refine ⟨by decide, ?_, by simp⟩
  simp [repurchaseIndex, c7rowsBad, orderCountOf, uniqueCustomersOf, EF.div,
    replacePinf0, fillnaWith]

/-- C7, amended: the repurchase index is `order_count / unique_customers`
when the denominator is positive; with a zero denominator it is 0 only
when the order count is positive (the `inf` branch), and 1 when the order
count is 0 too (the `NaN` branch filled with 1). -/
theorem c7_repurchase_amended (rows : List ORow) (s : String) :
    (0 < uniqueCustomersOf rows s →
      repurchaseIndex rows s =
        EF.fin ((orderCountOf rows s : ℚ) / (uniqueCustomersOf rows s : ℚ))) ∧
    (uniqueCustomersOf rows s = 0 → 0 < orderCountOf rows s →
      repurchaseIndex rows s = EF.fin 0) ∧
    (uniqueCustomersOf rows s = 0 → orderCountOf rows s = 0 →
      repurchaseIndex rows s = EF.fin 1) := by
  refine ⟨?_, ?_, ?_⟩
  · intro h
    have hu : ((uniqueCustomersOf rows s : ℚ)) ≠ 0 := by exact_mod_cast h.ne'
    simp [repurchaseIndex, EF.div, hu, replacePinf0, fillnaWith]
  · intro h0 hoc
    have ho : (0 : ℚ) < (orderCountOf rows s : ℚ) := by exact_mod_cast hoc
    simp [repurchaseIndex, EF.div, h0, ho.ne', ho, replacePinf0, fillnaWith]
  · intro h0 hoc
    simp [repurchaseIndex, EF.div, h0, hoc, replacePinf0, fillnaWith]

/-- C7 witness: a seller group with one customer and two orders gets
repurchase index 2/1. -/
theorem c7_witness :
    repurchaseIndex c7rowsGood ("S") =
      EF.fin ((orderCountOf c7rowsGood ("S") : ℚ) / (uniqueCustomersOf c7rowsGood ("S") : ℚ)) :=
  (c7_repurchase_amended c7rowsGood ("S")).1 (by decide)

/-- Scanning for the first digit run skips any digit-free prefix. -/
theorem firstDigitRun_append_no_digit (a r : List Char) (h : ∀ c ∈ a, ¬c.isDigit) :
    firstDigitRun (a ++ r) = firstDigitRun r := by
  induction a with
  | nil => rfl
  | cons c t ih =>
    simp only [List.cons_append, firstDigitRun]
    rw [if_neg (h c (List.mem_cons_self c t))]
    exact ih (fun x hx => h x (List.mem_cons_of_mem c hx))

/-- `takeWhile` passes through a prefix on which the predicate holds. -/
theorem takeWhile_append_all (p : Char → Bool) (a r : List Char) (h : ∀ c ∈ a, p c) :
    (a ++ r).takeWhile p = a ++ r.takeWhile p := by
  induction a with
  | nil => rfl
  | cons c t ih =>
    simp only [List.cons_append, List.takeWhile_cons, h c (List.mem_cons_self c t)]
    simp [ih (fun x hx => h x (List.mem_cons_of_mem c hx))]

/-- `takeWhile` stops immediately when the head fails the predicate. -/
theorem takeWhile_eq_nil_of_head (p : Char → Bool) (l : List Char)
    (h : ∀ c, l.head? = some c → ¬p c) : l.takeWhile p = [] := by
  cases l with
  | nil => rfl
  | cons c t => simp [List.takeWhile_cons, h c rfl]

/-- C3: `extract_numeric_value` on any string of the form (digit-free
prefix) ++ (digit run) ++ (rest not starting with a digit once commas are
removed) yields the value of that first digit run — later numbers are
ignored — and the spec's concrete cases hold, including 0.0 for the empty
string and for a `None` cell. -/
theorem c3_extract_first_digit_run :
    (∀ a b c : List Char, (∀ ch ∈ a, ¬ch.isDigit) → b ≠ [] → (∀ ch ∈ b, ch.isDigit) →
      (∀ ch, (c.filter (fun x => x ≠ ',')).head? = some ch → ¬ch.isDigit) →
      extract_numeric_value (PyVal.str (String.mk (a ++ b ++ c))) =
        PyVal.num (digitsVal b : ℚ)) ∧
    extract_numeric_value (PyVal.str ("16649 1551 (9.32%)")) = PyVal.num 16649 ∧
    extract_numeric_value (PyVal.str ("780 (89)")) = PyVal.num 780 ∧
    extract_numeric_value (PyVal.str ("")) = PyVal.num 0 ∧
    extract_numeric_value PyVal.none_ = PyVal.num 0 := by
  refine ⟨?_, by rfl, by rfl, by rfl, by rfl⟩
  intro a b c ha hb hbd hc
  have hdata : (String.mk (a ++ b ++ c)).data = a ++ b ++ c := rfl
  have hbf : b.filter (fun x => x ≠ ',') = b := by
    rw [List.filter_eq_self]
    intro x hx
    have : x ≠ ',' := by
      intro hcomma
      exact absurd (hbd x hx) (by simp [hcomma])
    simpa using this
  have haf : ∀ ch ∈ a.filter (fun x => x ≠ ','), ¬ch.isDigit :=
    fun ch hch => ha ch (List.mem_of_mem_filter hch)
  obtain ⟨d, t, rfl⟩ : ∃ d t, b = d :: t := by
    cases b with
    | nil => exact absurd rfl hb
    | cons d t => exact ⟨d, t, rfl⟩
  simp only [extract_numeric_value, hdata, List.filter_append, hbf, List.append_assoc]
  rw [firstDigitRun_append_no_digit _ _ haf]
  simp only [List.cons_append, firstDigitRun,
    if_pos (hbd d (List.mem_cons_self d t)), List.append_eq]
  rw [takeWhile_append_all _ _ _ (fun x hx => hbd x (List.mem_cons_of_mem d hx)),
    takeWhile_eq_nil_of_head _ _ hc, List.append_nil]

/-- C3 witness: a concrete instance of the first-digit-run shape, with a
later parenthesised number ignored. -/
theorem c3_witness :
    extract_numeric_value (PyVal.str (String.mk
      ([' '] ++ ['4', '2'] ++ [' ', '(', '7', ')']))) =
      PyVal.num (digitsVal ['4', '2'] : ℚ) :=
  c3_extract_first_digit_run.1 [' '] ['4', '2'] [' ', '(', '7', ')']
    (by decide) (by decide) (by decide) (by decide)

/-- C2 counterexample: `clean_money` raises (`none`) on the unparsable
currency string `"abc"`, so a row carrying it fails to load, and a `NaN`
currency cell passes through as `NaN` rather than being coerced to 0.0. -/
theorem c2_counterexample :
    clean_money (PyVal.str ("abc")) = none ∧ loadRow c2rawBad = none ∧
    clean_money PyVal.nan = some PyVal.nan := by
  refine ⟨by rfl, ?_, by rfl⟩
  simp [loadRow, c2rawBad, clean_money, pyFloat, pyFloatCore, trimWs]

/-- C2, amended: the cleaning stage is total only on rows whose currency
strings parse after comma stripping and whose timestamp parses; a parsable
currency string becomes its numeric value (thousands separators and
surrounding whitespace stripped), and non-string currency cells — numbers
and `NaN` alike — pass through unchanged instead of being defaulted
to 0.0. -/
theorem c2_cleaning_amended :
    (∀ r : RawRow, (clean_money r.paid).isSome → (clean_money r.supply).isSome →
      (pyToDatetime r.orderDate).isSome → (loadRow r).isSome) ∧
    (∀ (s : String) (q : ℚ), pyFloat (s.data.filter (fun c => c ≠ ',')) = some q →
      clean_money (PyVal.str s) = some (PyVal.num q)) ∧
    (∀ q : ℚ, clean_money (PyVal.num q) = some (PyVal.num q)) ∧
    clean_money PyVal.nan = some PyVal.nan := by
  refine ⟨?_, ?_, fun q => rfl, rfl⟩
  · intro r h1 h2 h3
    rw [Option.isSome_iff_exists] at h1 h2 h3
    obtain ⟨p, hp⟩ := h1
    obtain ⟨v, hv⟩ := h2
    obtain ⟨d, hd⟩ := h3
    simp [loadRow, hp, hv, hd]
  · intro s q h
    show (pyFloat (s.data.filter (fun c => c ≠ ','))).map PyVal.num = some (PyVal.num q)
    rw [h]
    rfl

/-- C2 witness: a row with parsable currency strings and a parsable
timestamp loads successfully. -/
theorem c2_witness : (loadRow c2rawGood).isSome :=
  c2_cleaning_amended.1 c2rawGood (by rfl) (by rfl) (by rfl)

/-- C8 counterexample: cleaning accepts a negative paid amount (`"-5"`
cleans to -5 < 0), and the net-quantity column is coerced on its own
(here the unparsable `"abc"` becomes 0), so after cleaning
`net_qty = 0 ≠ 3 - 0 = ordered_qty - cancelled_qty`. -/
theorem c8_counterexample :
    (loadRow c8raw0).map (fun r => (r.paid, r.net, r.ordered, r.cancelled)) =
      some (PyVal.num (-5), 0, 3, 0) ∧ (-5 : ℚ) < 0 ∧ (0 : ℚ) ≠ 3 - 0 := by
  refine ⟨by rfl, by norm_num, by norm_num⟩

/-- C8, amended: the cleaning stage merely preserves values — if the raw
paid string parses to a non-negative number then the cleaned paid amount
is that number (and is ≥ 0), and the cleaned net quantity equals
ordered minus cancelled exactly when the independently coerced raw columns
already satisfy that equation; the stage itself enforces neither
property. -/
theorem c8_invariants_amended (raw : RawRow) (cr : CleanRow) (q : ℚ)
    (hload : loadRow raw = some cr)
    (hpaid : clean_money raw.paid = some (PyVal.num q)) (hq : 0 ≤ q)
    (hnet : toNumeric0 raw.net = toNumeric0 raw.ordered - toNumeric0 raw.cancelled) :
    cr.paid = PyVal.num q ∧ 0 ≤ q ∧ cr.net = cr.ordered - cr.cancelled := by
  rcases hsup : clean_money raw.supply with _ | vs
  · simp [loadRow, hpaid, hsup] at hload
  rcases hdat : pyToDatetime raw.orderDate with _ | d
  · simp [loadRow, hpaid, hsup, hdat] at hload
  simp [loadRow, hpaid, hsup, hdat] at hload
  subst hload
  exact ⟨rfl, hq, hnet⟩

/-- C8 witness: a well-formed consistent raw row keeps its non-negative
paid amount and its `net = ordered - cancelled` relation. -/
theorem c8_witness :
    c8clean1.paid = PyVal.num 1000 ∧ (0 : ℚ) ≤ 1000 ∧
      c8clean1.net = c8clean1.ordered - c8clean1.cancelled :=
  c8_invariants_amended c8raw1 c8clean1 1000 (by rfl) (by rfl) (by norm_num)
    (by simp [c8raw1, toNumeric0]
        norm_num)

/-- C9 counterexample: a row with missing region and channel still has
missing region and channel after the cleaning stage — only seller and
variety are sentinel-filled — so grouping tab6 on region or channel drops
such rows. -/
theorem c9_counterexample :
    (loadRow c9raw).map (fun r => (r.region, r.channel, r.seller, r.variety)) =
      some (none, none, ("미지정" : String), ("기타" : String)) := by rfl

/-- C9, amended: after cleaning, seller_name and variety are non-null —
filled with the sentinels `미지정` (unassigned) and `기타` (other) when
missing, kept otherwise — while region and order_channel pass through
untouched, so they can still be null when grouping runs. -/
theorem c9_categorical_fill_amended (raw : RawRow) (cr : CleanRow)
    (hload : loadRow raw = some cr) :
    (raw.seller = none → cr.seller = "미지정") ∧
    (∀ s, raw.seller = some s → cr.seller = s) ∧
    (raw.variety = none → cr.variety = "기타") ∧
    (∀ v, raw.variety = some v → cr.variety = v) ∧
    cr.region = raw.region ∧ cr.channel = raw.channel := by
  rcases hp : clean_money raw.paid with _ | vp
  · simp [loadRow, hp] at hload
  rcases hsup : clean_money raw.supply with _ | vs
  · simp [loadRow, hp, hsup] at hload
  rcases hdat : pyToDatetime raw.orderDate with _ | d
  · simp [loadRow, hp, hsup, hdat] at hload
  simp [loadRow, hp, hsup, hdat] at hload
  subst hload
  refine ⟨fun h => by simp [h], fun s h => by simp [h], fun h => by simp [h],
    fun v h => by simp [h], rfl, rfl⟩

/-- C9 witness: the concrete row with missing seller and variety gets the
sentinels, while its missing region passes through. -/
theorem c9_witness :
    c9clean.seller = "미지정" ∧ c9clean.region = c9raw.region :=
  ⟨(c9_categorical_fill_amended c9raw c9clean (by rfl)).1 rfl,
   (c9_categorical_fill_amended c9raw c9clean (by rfl)).2.2.2.2.1⟩

/-- Summing a filtered list equals summing the indicator version over the
whole list. -/
theorem filter_map_sum_eq {α : Type} (l : List α) (p : α → Prop) [DecidablePred p]
    (v : α → ℚ) :
    ((l.filter (fun x => p x)).map v).sum = (l.map (fun x => if p x then v x else 0)).sum := by
  induction l with
  | nil => rfl
  | cons a t ih =>
    by_cases h : p a <;> simp [List.filter_cons, h, ih]

/-- Double list sums commute. -/
theorem sum_map_swap {α β : Type} (l1 : List β) (l2 : List α) (f : β → α → ℚ) :
    (l1.map (fun c => (l2.map (f c)).sum)).sum =
      (l2.map (fun x => (l1.map (fun c => f c x)).sum)).sum := by
  induction l1 with
  | nil => simp
  | cons c t ih =>
    simp only [List.map_cons, List.sum_cons, ih]
    rw [← List.sum_map_add]

/-- Over a duplicate-free list containing `a`, the indicator sum picks out
exactly one term. -/
theorem nodup_indicator_sum {β : Type} [DecidableEq β] (l : List β) (hN : l.Nodup)
    (a : β) (ha : a ∈ l) (w : ℚ) :
    (l.map (fun c => if a = c then w else 0)).sum = w := by
  induction l with
  | nil => cases ha
  | cons c t ih =>
    rcases List.mem_cons.mp ha with h | h
    · subst h
      have hz : (t.map (fun x => if a = x then w else 0)).sum = 0 := by
        apply List.sum_eq_zero
        intro z hz
        obtain ⟨x, hx, rfl⟩ := List.mem_map.mp hz
        have hne : a ≠ x := fun he => (List.nodup_cons.mp hN).1 (he ▸ hx)
        simp [hne]
      simp [hz]
    · have hne : a ≠ c := fun he => (List.nodup_cons.mp hN).1 (he ▸ h)
      simp [hne, ih (List.nodup_cons.mp hN).2 h]

/-- Grouping a list by a key and summing the per-group sums recovers the
total: the per-channel sales of `channelSales` partition the seller's
rows. -/
theorem groupby_sum_total {α β : Type} [DecidableEq β] (l : List α) (k : α → β)
    (v : α → ℚ) :
    ((l.map k).dedup.map (fun c => ((l.filter (fun x => k x = c)).map v).sum)).sum =
      (l.map v).sum := by
  have h1 : ∀ c, ((l.filter (fun x => k x = c)).map v).sum =
      (l.map (fun x => if k x = c then v x else 0)).sum :=
    fun c => filter_map_sum_eq l (fun x => k x = c) v
  calc ((l.map k).dedup.map (fun c => ((l.filter (fun x => k x = c)).map v).sum)).sum
      = ((l.map k).dedup.map (fun c =>
          (l.map (fun x => if k x = c then v x else 0)).sum)).sum := by
        exact congrArg List.sum (List.map_congr_left (fun c _ => h1 c))
    _ = (l.map (fun x =>
          ((l.map k).dedup.map (fun c => if k x = c then v x else 0)).sum)).sum :=
        sum_map_swap _ _ _
    _ = (l.map v).sum := by
        refine congrArg List.sum (List.map_congr_left ?_)
        intro x hx
        exact nodup_indicator_sum (l.map k).dedup (List.nodup_dedup _) (k x)
          (by simpa [List.mem_dedup] using List.mem_map_of_mem k hx) (v x)

/-- `sumSkipNa` over an all-finite list is the finite sum. -/
theorem sumSkipNa_map_fin {α : Type} (l : List α) (g : α → ℚ) :
    sumSkipNa (l.map (fun x => EF.fin (g x))) = EF.fin ((l.map g).sum) := by
  have key : ∀ (m : List α) (q : ℚ),
      (m.map (fun x => EF.fin (g x))).foldl EF.add (EF.fin q) = EF.fin (q + (m.map g).sum) := by
    intro m
    induction m with
    | nil => intro q; simp
    | cons a t ih =>
      intro q
      simp only [List.map_cons, List.foldl_cons, EF.add, List.sum_cons, ih]
      ring_nf
  unfold sumSkipNa
  rw [List.filter_eq_self.mpr (by intro e he; simp [List.mem_map] at he; obtain ⟨x, _, rfl⟩ := he; simp)]
  simpa using key l 0

/-- C4 counterexample: in the unguarded tab6 regional HHI, a region whose
two sellers' sales cancel to a zero total yields `+inf` (each share is
`±100/0`, each squared share `+inf`), not the claimed 0 — the zero-total
guard exists only in `calculate_channel_hhi`. -/
theorem c4_counterexample :
    (regionSellerSales c4rows ("R")).sum = 0 ∧
    tab6RegionHhi c4rows ("R") = EF.pinf ∧ EF.pinf ≠ EF.fin 0 := by
  have hsales : regionSellerSales c4rows ("R") = [100, -100] := by
    simp [regionSellerSales, c4rows]
  refine ⟨by rw [hsales]; norm_num, ?_, by simp⟩
  rw [tab6RegionHhi, hsales]
  have htot : ([100, -100] : List ℚ).sum = 0 := by norm_num
  simp only [tab6Hhi, htot, List.map_cons, List.map_nil]
  norm_num [EF.div, EF.mul, EF.sq]
  simp [sumSkipNa, EF.add]

/-- C4, amended: `calculate_channel_hhi` returns the sum of squared
percentage shares of the group total and 0 on an empty or zero-total
group, where the channel sales partition the seller's total sales; the
tab6 regional HHI agrees with the squared-share sum whenever the group
total is nonzero and returns 0 on a zero total only in the all-zero-sales
case (its `NaN` shares being skipped by `sum`). -/
theorem c4_hhi_amended :
    (∀ (rows : List SRow) (s : String), (channelSales rows s).sum = 0 →
      calculate_channel_hhi rows s = 0) ∧
    (∀ (rows : List SRow) (s : String), (channelSales rows s).sum ≠ 0 →
      calculate_channel_hhi rows s =
        ((channelSales rows s).map
          (fun x => (x / (channelSales rows s).sum * 100) ^ 2)).sum) ∧
    (∀ (rows : List SRow) (s : String), (channelSales rows s).sum =
      ((rows.filter (fun r => r.seller = s)).map (fun r => r.paid)).sum) ∧
    (∀ sales : List ℚ, sales.sum ≠ 0 →
      tab6Hhi sales = EF.fin ((sales.map (fun x => (x / sales.sum * 100) ^ 2)).sum)) ∧
    (∀ sales : List ℚ, (∀ x ∈ sales, x = 0) → tab6Hhi sales = EF.fin 0) := by
  refine ⟨?_, ?_, ?_, ?_, ?_⟩
  · intro rows s h
    unfold calculate_channel_hhi
    split_ifs <;> rfl
  · intro rows s h
    unfold calculate_channel_hhi
    split_ifs with h1
    · exfalso
      apply h
      simp [channelSales, h1]
    · rfl
  · intro rows s
    exact groupby_sum_total (rows.filter (fun r => r.seller = s)) (fun r => r.channel)
      (fun r => r.paid)
  · intro sales h
    unfold tab6Hhi
    have hmap : sales.map (fun x =>
        EF.sq (EF.mul (EF.div (EF.fin x) (EF.fin sales.sum)) (EF.fin 100))) =
        sales.map (fun x => EF.fin ((x / sales.sum * 100) ^ 2)) := by
      refine List.map_congr_left ?_
      intro x hx
      simp [EF.div, EF.mul, EF.sq, h, pow_two]
    rw [hmap, sumSkipNa_map_fin]
  · intro sales h
    have hz : sales.sum = 0 := List.sum_eq_zero h
    unfold tab6Hhi
    have hmap : sales.map (fun x =>
        EF.sq (EF.mul (EF.div (EF.fin x) (EF.fin sales.sum)) (EF.fin 100))) =
        sales.map (fun _ => EF.nan) := by
      refine List.map_congr_left ?_
      intro x hx
      simp [EF.div, EF.mul, EF.sq, hz, h x hx]
    rw [hmap]
    unfold sumSkipNa
    rw [List.filter_eq_nil_iff.mpr (by intro e he; simp [List.mem_map] at he; simp [he])]
    rfl

/-- C4 witness: a seller with a positive total gets the squared-share sum
from `calculate_channel_hhi`, and so does a nonzero-total sales list in
the tab6 formula. -/
theorem c4_witness :
    calculate_channel_hhi c4srows ("A") =
      ((channelSales c4srows ("A")).map
        (fun x => (x / (channelSales c4srows ("A")).sum * 100) ^ 2)).sum ∧
    tab6Hhi [2, 3] =
      EF.fin ((([2, 3] : List ℚ).map (fun x => (x / ([2, 3] : List ℚ).sum * 100) ^ 2)).sum) :=
  ⟨c4_hhi_amended.2.1 c4srows ("A") (by simp [channelSales, c4srows]; norm_num),
   c4_hhi_amended.2.2.2.1 [2, 3] (by norm_num)⟩

/-- A strictly smaller (value, position) pair gets a strictly smaller
first-method rank: its below-set is a strict subset. -/
theorem rankFirst_lt_rankFirst (xs : List ℚ) {i j : ℕ} (hi : i < xs.length)
    (_hj : j < xs.length)
    (hij : xs.getD i 0 < xs.getD j 0 ∨ (xs.getD i 0 = xs.getD j 0 ∧ i < j)) :
    rankFirst xs i < rankFirst xs j := by
  have hsub : (Finset.range xs.length).filter (fun k =>
      xs.getD k 0 < xs.getD i 0 ∨ (xs.getD k 0 = xs.getD i 0 ∧ k < i)) ⊂
      (Finset.range xs.length).filter (fun k =>
      xs.getD k 0 < xs.getD j 0 ∨ (xs.getD k 0 = xs.getD j 0 ∧ k < j)) := by
    rw [Finset.ssubset_def]
    constructor
    · intro k hk
      rw [Finset.mem_filter] at hk ⊢
      refine ⟨hk.1, ?_⟩
      rcases hk.2 with h | ⟨he, hlt⟩
      · rcases hij with h2 | ⟨he2, _⟩
        · exact Or.inl (h.trans h2)
        · exact Or.inl (h.trans_eq he2)
      · rcases hij with h2 | ⟨he2, hlt2⟩
        · exact Or.inl (he.trans_lt h2)
        · exact Or.inr ⟨he.trans he2, hlt.trans hlt2⟩
    · intro hrev
      have hmem : i ∈ (Finset.range xs.length).filter (fun k =>
          xs.getD k 0 < xs.getD j 0 ∨ (xs.getD k 0 = xs.getD j 0 ∧ k < j)) :=
        Finset.mem_filter.mpr ⟨Finset.mem_range.mpr hi, hij⟩
      have hmem2 := hrev hmem
      rcases (Finset.mem_filter.mp hmem2).2 with h | ⟨_, hlt⟩
      · exact lt_irrefl _ h
      · exact lt_irrefl _ hlt
  have := Finset.card_lt_card hsub
  unfold rankFirst
  omega

/-- First-method ranks never exceed the series length. -/
theorem rankFirst_le (xs : List ℚ) {i : ℕ} (hi : i < xs.length) :
    rankFirst xs i ≤ xs.length := by
  have hsub : (Finset.range xs.length).filter (fun k =>
      xs.getD k 0 < xs.getD i 0 ∨ (xs.getD k 0 = xs.getD i 0 ∧ k < i)) ⊆
      (Finset.range xs.length).erase i := by
    intro k hk
    rw [Finset.mem_filter] at hk
    refine Finset.mem_erase.mpr ⟨?_, hk.1⟩
    rintro rfl
    rcases hk.2 with h | ⟨_, hlt⟩
    · exact lt_irrefl _ h
    · exact lt_irrefl _ hlt
  have hcard := Finset.card_le_card hsub
  rw [Finset.card_erase_of_mem (Finset.mem_range.mpr hi), Finset.card_range] at hcard
  unfold rankFirst
  omega

/-- Distinct positions receive distinct first-method ranks, duplicated
raw values included. -/
theorem rankFirst_injective (xs : List ℚ) {i j : ℕ} (hi : i < xs.length)
    (hj : j < xs.length) (hne : i ≠ j) : rankFirst xs i ≠ rankFirst xs j := by
  rcases lt_trichotomy (xs.getD i 0) (xs.getD j 0) with h | h | h
  · exact (rankFirst_lt_rankFirst xs hi hj (Or.inl h)).ne
  · rcases lt_or_gt_of_ne hne with hij | hij
    · exact (rankFirst_lt_rankFirst xs hi hj (Or.inr ⟨h, hij⟩)).ne
    · exact (rankFirst_lt_rankFirst xs hj hi (Or.inr ⟨h.symm, hij⟩)).ne'
  · exact (rankFirst_lt_rankFirst xs hj hi (Or.inl h)).ne'

/-- The first-method ranks of an n-element series are exactly 1..n. -/
theorem rankFirst_image (xs : List ℚ) :
    (Finset.range xs.length).image (rankFirst xs) = Finset.Icc 1 xs.length := by
  have hinj : Set.InjOn (rankFirst xs) ↑(Finset.range xs.length) := by
    intro i hi j hj h
    rw [Finset.mem_coe, Finset.mem_range] at hi hj
    by_contra hne
    exact rankFirst_injective xs hi hj hne h
  apply Finset.eq_of_subset_of_card_le
  · intro r hr
    simp only [Finset.mem_image, Finset.mem_range] at hr
    obtain ⟨i, hi, rfl⟩ := hr
    refine Finset.mem_Icc.mpr ⟨?_, rankFirst_le xs hi⟩
    unfold rankFirst
    omega
  · rw [Nat.card_Icc, Finset.card_image_of_injOn hinj, Finset.card_range]
    omega

/-- Quintile-bucket population transfers from positions to the rank
values 1..n. -/
theorem bucketMembers_card_eq (xs : List ℚ) (b : ℕ) :
    (bucketMembers xs b).card =
      ((Finset.Icc 1 xs.length).filter (fun r => qcutBucket xs.length r = b)).card := by
  unfold bucketMembers
  rw [← rankFirst_image xs, Finset.filter_image,
    Finset.card_image_of_injOn (fun i hi j hj h => by
      rw [Finset.mem_coe, Finset.mem_filter, Finset.mem_range] at hi hj
      by_contra hne
      exact rankFirst_injective xs hi.1 hj.1 hne h)]

/-- Over the ranks 1..n with n at least 5, every one of the five qcut bins
is non-empty and holds either n/5 or n/5 + 1 ranks. -/
theorem qcut_filter_card (n : ℕ) (h5 : 5 ≤ n) (b : ℕ) (hb1 : 1 ≤ b) (hb5 : b ≤ 5) :
    1 ≤ ((Finset.Icc 1 n).filter (fun r => qcutBucket n r = b)).card ∧
    n / 5 ≤ ((Finset.Icc 1 n).filter (fun r => qcutBucket n r = b)).card ∧
    ((Finset.Icc 1 n).filter (fun r => qcutBucket n r = b)).card ≤ n / 5 + 1 := by
  interval_cases b
  · have he : (Finset.Icc 1 n).filter (fun r => qcutBucket n r = 1) =
        Finset.Icc 1 ((n - 1) / 5 + 1) := by
      ext r
      simp only [Finset.mem_filter, Finset.mem_Icc, qcutBucket]
      split_ifs <;> omega
    rw [he, Nat.card_Icc]
    obtain ⟨q, r, hr, hm⟩ : ∃ q r, r < 5 ∧ n - 1 = 5 * q + r :=
      ⟨(n - 1) / 5, (n - 1) % 5, Nat.mod_lt _ (by norm_num),
        (Nat.div_add_mod (n - 1) 5).symm⟩
    have hn : n = 5 * q + r + 1 := by omega
    subst hn
    interval_cases r <;> omega
  · have he : (Finset.Icc 1 n).filter (fun r => qcutBucket n r = 2) =
        Finset.Icc ((n - 1) / 5 + 2) (2 * (n - 1) / 5 + 1) := by
      ext r
      simp only [Finset.mem_filter, Finset.mem_Icc, qcutBucket]
      split_ifs <;> omega
    rw [he, Nat.card_Icc]
    obtain ⟨q, r, hr, hm⟩ : ∃ q r, r < 5 ∧ n - 1 = 5 * q + r :=
      ⟨(n - 1) / 5, (n - 1) % 5, Nat.mod_lt _ (by norm_num),
        (Nat.div_add_mod (n - 1) 5).symm⟩
    have hn : n = 5 * q + r + 1 := by omega
    subst hn
    interval_cases r <;> omega
  · have he : (Finset.Icc 1 n).filter (fun r => qcutBucket n r = 3) =
        Finset.Icc (2 * (n - 1) / 5 + 2) (3 * (n - 1) / 5 + 1) := by
      ext r
      simp only [Finset.mem_filter, Finset.mem_Icc, qcutBucket]
      split_ifs <;> omega
    rw [he, Nat.card_Icc]
    obtain ⟨q, r, hr, hm⟩ : ∃ q r, r < 5 ∧ n - 1 = 5 * q + r :=
      ⟨(n - 1) / 5, (n - 1) % 5, Nat.mod_lt _ (by norm_num),
        (Nat.div_add_mod (n - 1) 5).symm⟩
    have hn : n = 5 * q + r + 1 := by omega
    subst hn
    interval_cases r <;> omega
  · have he : (Finset.Icc 1 n).filter (fun r => qcutBucket n r = 4) =
        Finset.Icc (3 * (n - 1) / 5 + 2) (4 * (n - 1) / 5 + 1) := by
      ext r
      simp only [Finset.mem_filter, Finset.mem_Icc, qcutBucket]
      split_ifs <;> omega
    rw [he, Nat.card_Icc]
    obtain ⟨q, r, hr, hm⟩ : ∃ q r, r < 5 ∧ n - 1 = 5 * q + r :=
      ⟨(n - 1) / 5, (n - 1) % 5, Nat.mod_lt _ (by norm_num),
        (Nat.div_add_mod (n - 1) 5).symm⟩
    have hn : n = 5 * q + r + 1 := by omega
    subst hn
    interval_cases r <;> omega
  · have he : (Finset.Icc 1 n).filter (fun r => qcutBucket n r = 5) =
        Finset.Icc (4 * (n - 1) / 5 + 2) n := by
      ext r
      simp only [Finset.mem_filter, Finset.mem_Icc, qcutBucket]
      split_ifs <;> omega
    rw [he, Nat.card_Icc]
    obtain ⟨q, r, hr, hm⟩ : ∃ q r, r < 5 ∧ n - 1 = 5 * q + r :=
      ⟨(n - 1) / 5, (n - 1) % 5, Nat.mod_lt _ (by norm_num),
        (Nat.div_add_mod (n - 1) 5).symm⟩
    have hn : n = 5 * q + r + 1 := by omega
    subst hn
    interval_cases r <;> omega

/-- C6: RFM quintile scoring gives every customer a distinct rank per
measure even with duplicated raw values; with at least 5 customers each of
the 5 buckets is non-empty and holds n/5 customers up to a remainder of 1;
and the label lists invert Recency — the customer with the strictly
smallest recency gets R score 5, while for Frequency/Monetary the customer
with the strictly largest value gets score 5. -/
theorem c6_rfm_quintiles (xs : List ℚ) (h5 : 5 ≤ xs.length) :
    (∀ i j, i < xs.length → j < xs.length → i ≠ j →
      rankFirst xs i ≠ rankFirst xs j) ∧
    (∀ b, 1 ≤ b → b ≤ 5 →
      1 ≤ (bucketMembers xs b).card ∧ xs.length / 5 ≤ (bucketMembers xs b).card ∧
      (bucketMembers xs b).card ≤ xs.length / 5 + 1) ∧
    (∀ i, i < xs.length → (∀ j, j < xs.length → j ≠ i → xs.getD i 0 < xs.getD j 0) →
      rScoreRfm xs i = 5) ∧
    (∀ i, i < xs.length → (∀ j, j < xs.length → j ≠ i → xs.getD j 0 < xs.getD i 0) →
      fScoreRfm xs i = 5) := by
  refine ⟨fun i j hi hj hne => rankFirst_injective xs hi hj hne, ?_, ?_, ?_⟩
  · intro b hb1 hb5
    rw [bucketMembers_card_eq]
    exact qcut_filter_card xs.length h5 b hb1 hb5
  · intro i hi hmin
    have hrank : rankFirst xs i = 1 := by
      unfold rankFirst
      have hempty : (Finset.range xs.length).filter (fun k =>
          xs.getD k 0 < xs.getD i 0 ∨ (xs.getD k 0 = xs.getD i 0 ∧ k < i)) = ∅ := by
        rw [Finset.filter_eq_empty_iff]
        intro k hk
        rw [Finset.mem_range] at hk
        by_cases hki : k = i
        · subst hki
          rintro (h | ⟨_, h⟩) <;> exact lt_irrefl _ h
        · have hlt := hmin k hk hki
          rintro (h | ⟨he, _⟩)
          · exact absurd h (not_lt.mpr hlt.le)
          · exact absurd he hlt.ne'
      rw [hempty, Finset.card_empty]
    unfold rScoreRfm
    rw [hrank]
    have hb : qcutBucket xs.length 1 = 1 := by
      unfold qcutBucket
      simp
    rw [hb]
  · intro i hi hmax
    have hrank : rankFirst xs i = xs.length := by
      unfold rankFirst
      have herase : (Finset.range xs.length).filter (fun k =>
          xs.getD k 0 < xs.getD i 0 ∨ (xs.getD k 0 = xs.getD i 0 ∧ k < i)) =
          (Finset.range xs.length).erase i := by
        ext k
        rw [Finset.mem_filter, Finset.mem_erase, Finset.mem_range]
        constructor
        · rintro ⟨hk, h | ⟨he, hlt⟩⟩
          · exact ⟨fun hki => absurd (hki ▸ h) (lt_irrefl _), hk⟩
          · exact ⟨fun hki => absurd (hki ▸ hlt) (lt_irrefl _), hk⟩
        · rintro ⟨hki, hk⟩
          exact ⟨hk, Or.inl (hmax k hk hki)⟩
      rw [herase, Finset.card_erase_of_mem (Finset.mem_range.mpr hi), Finset.card_range]
      omega
    unfold fScoreRfm
    rw [hrank]
    unfold qcutBucket
    split_ifs <;> omega

/-- C6 witness: five recency values with a duplicate still rank
distinctly, bucket 2 is populated, and the unique minimum/maximum take
score 5 under the respective label lists. -/
theorem c6_witness :
    rankFirst c6xs 1 ≠ rankFirst c6xs 3 ∧ 1 ≤ (bucketMembers c6xs 2).card ∧
    rScoreRfm c6xs2 1 = 5 ∧ fScoreRfm c6xs2 4 = 5 :=
  ⟨(c6_rfm_quintiles c6xs (by decide)).1 1 3 (by decide) (by decide) (by decide),
   ((c6_rfm_quintiles c6xs (by decide)).2.1 2 (by decide) (by decide)).1,
   (c6_rfm_quintiles c6xs2 (by decide)).2.2.1 1 (by decide) (by decide),
   (c6_rfm_quintiles c6xs2 (by decide)).2.2.2 4 (by decide) (by decide)⟩
